import Mathlib

/-!
Shallow embedding of the bg-tm background process manager
(`src/process-manager.js` and `src/storage.js`).

Modelling conventions:
* The persisted document (`processes.json`) is a `List ProcessRecord`;
  every storage helper is read-modify-write over that list, exactly as in
  `storage.js`.
* OS liveness is an oracle `alive : Nat → Bool`; on POSIX
  `isProcessRunning pid` is `kill(pid, 0)` succeeding, and `process.kill`
  raises `ESRCH` exactly when the pid is dead, so both are driven by an
  oracle.  `stopProcess` performs two distinct OS calls at different
  times (the liveness probe inside `getProcess`, and the terminate
  signal), hence it takes two oracles.
* Timestamps (`Date.now()` / `toISOString()`) are `Nat` parameters.
* JavaScript truthiness of the relevant values is modelled explicitly:
  an empty string and the number 0 are falsy, objects (including `{}`
  and `[]`) are truthy.
* Operations that mutate storage return the final document together with
  an `Except` result, because a JS exception thrown after a storage
  write leaves that write in place.
-/

/-- Process status enum: `'running' | 'stopped' | 'error'`. -/
inductive Status
  | running
  | stopped
  | error
deriving DecidableEq, Repr

/-- A persisted process record (the JSON object built in
`ProcessManager.startProcess`, plus the optional metadata attached by
`updateProcessStatus`). -/
structure ProcessRecord where
  id : String
  name : String
  command : String
  pid : Option Nat
  status : Status
  startTime : Nat
  workingDirectory : String
  environment : List (String × String)
  logFile : Option String
  autostart : Bool
  lastUpdated : Option Nat := none
  exitCode : Option Int := none
  signal : Option String := none
  stoppedBy : Option String := none
  stoppedAt : Option Nat := none
  errMsg : Option String := none
deriving DecidableEq, Repr

/-- Errors surfaced by the manager / storage layer. -/
inductive PMError
  | notFound (nameOrId : String)
  | notRunning (nameOrId : String)
  | storageNotFound (processId : String)
  | invalidArg
  | noLogFile (nameOrId : String)
  | logFileNotFound (path : String)
  | invalidFormat
deriving DecidableEq, Repr

/-- JavaScript `a || b` for an optional string option value: `undefined`
and `""` are falsy. -/
def jsOrStr (o : Option String) (dflt : String) : String :=
  match o with
  | some s => if s = "" then dflt else s
  | none => dflt

/-- JavaScript truthiness of `processData.pid` (absent or 0 is falsy). -/
def jsTruthyPid : Option Nat → Bool
  | some p => p != 0
  | none => false

/-- JavaScript truthiness of `process.logFile` (absent or `""` is falsy). -/
def jsTruthyLog : Option String → Bool
  | some s => s != ""
  | none => false

/-- The update object passed to `storage.updateProcess` by
`ProcessManager.updateProcessStatus`: `{status, lastUpdated, ...metadata}`.
A `some` field models a key present in the metadata object. -/
structure StatusUpdate where
  status : Status
  lastUpdated : Nat
  exitCode : Option Int := none
  signal : Option String := none
  stoppedBy : Option String := none
  stoppedAt : Option Nat := none
  errMsg : Option String := none
deriving DecidableEq, Repr

/-- The object spread `{...processes[idx], ...updates}` specialised to the
update shapes produced by `updateProcessStatus`. -/
def applyStatusUpdate (p : ProcessRecord) (u : StatusUpdate) : ProcessRecord :=
  { p with
    status := u.status
    lastUpdated := some u.lastUpdated
    exitCode := match u.exitCode with | some c => some c | none => p.exitCode
    signal := match u.signal with | some s => some s | none => p.signal
    stoppedBy := match u.stoppedBy with | some s => some s | none => p.stoppedBy
    stoppedAt := match u.stoppedAt with | some t => some t | none => p.stoppedAt
    errMsg := match u.errMsg with | some e => some e | none => p.errMsg }

/-- Metadata `{stoppedBy: 'system', stoppedAt: now}` with status `stopped`. -/
def stoppedBySystem (now : Nat) : StatusUpdate :=
  { status := .stopped, lastUpdated := now, stoppedBy := some "system", stoppedAt := some now }

/-- Metadata `{stoppedBy: 'user', stoppedAt: now}` with status `stopped`. -/
def stoppedByUser (now : Nat) : StatusUpdate :=
  { status := .stopped, lastUpdated := now, stoppedBy := some "user", stoppedAt := some now }

/-- `Storage.getProcess`: first record matching by id or by name. -/
def storageGetProcess (doc : List ProcessRecord) (nameOrId : String) : Option ProcessRecord :=
  doc.find? (fun p => p.id == nameOrId || p.name == nameOrId)

/-- `Storage.updateProcess` (via `updateProcessStatus`): merge the update
into the first record whose id matches; throw if none matches. -/
def storageUpdateStatus (processId : String) (u : StatusUpdate) :
    List ProcessRecord → Except PMError (List ProcessRecord)
  | [] => .error (.storageNotFound processId)
  | p :: rest =>
    if p.id = processId then .ok (applyStatusUpdate p u :: rest)
    else (storageUpdateStatus processId u rest).map (p :: ·)

/-- `Storage.saveProcess`: replace the first record with the same id, or
push the record at the end. -/
def storageSaveProcess (newRec : ProcessRecord) : List ProcessRecord → List ProcessRecord
  | [] => [newRec]
  | p :: rest =>
    if p.id = newRec.id then newRec :: rest
    else p :: storageSaveProcess newRec rest

/-- `Storage.deleteProcess`: drop every record with the given id; throw if
nothing was dropped. -/
def storageDeleteProcess (doc : List ProcessRecord) (processId : String) :
    Except PMError (List ProcessRecord) :=
  let filtered := doc.filter (fun p => decide (p.id ≠ processId))
  if filtered.length = doc.length then .error (.storageNotFound processId)
  else .ok filtered

/-- `ProcessManager.getProcess`: look the record up; if it is marked
`running` with a truthy pid, probe the OS and silently reconcile to
`stopped` (persisting `stoppedBy: 'system'`) when the pid is dead.  Only
the in-memory copy's `status` field is patched before returning. -/
def getProcessM (alive : Nat → Bool) (now : Nat) (doc : List ProcessRecord)
    (nameOrId : String) : List ProcessRecord × Except PMError ProcessRecord :=
  match storageGetProcess doc nameOrId with
  | none => (doc, .error (.notFound nameOrId))
  | some p =>
    match p.pid with
    | some pidv =>
      if p.status = .running ∧ pidv ≠ 0 then
        if alive pidv then (doc, .ok p)
        else
          match storageUpdateStatus p.id (stoppedBySystem now) doc with
          | .error e => (doc, .error e)
          | .ok doc2 => (doc2, .ok { p with status := .stopped })
      else (doc, .ok p)
    | none => (doc, .ok p)

/-- `ProcessManager.stopProcess` on the POSIX branch.  `aliveCheck` drives
the `isProcessRunning` probe performed by the inner `getProcess`;
`aliveKill` tells whether `process.kill(pid, signal)` succeeds or throws
`ESRCH` (the process died between the two OS calls).  The `force` flag
only selects SIGKILL over SIGTERM and does not change the modelled
outcome. -/
def stopProcessM (aliveCheck aliveKill : Nat → Bool) (now : Nat)
    (doc : List ProcessRecord) (nameOrId : String) (force : Bool) :
    List ProcessRecord × Except PMError ProcessRecord :=
  match getProcessM aliveCheck now doc nameOrId with
  | (doc1, .error e) => (doc1, .error e)
  | (doc1, .ok p) =>
    let _signal := if force then "SIGKILL" else "SIGTERM"
    if p.status = .running then
      match p.pid with
      | none => (doc1, .error .invalidArg)
      | some pidv =>
        if aliveKill pidv then
          match storageUpdateStatus p.id (stoppedByUser now) doc1 with
          | .error e => (doc1, .error e)
          | .ok doc2 => (doc2, .ok p)
        else
          match storageUpdateStatus p.id (stoppedBySystem now) doc1 with
          | .error e => (doc1, .error e)
          | .ok doc2 => (doc2, .ok p)
    else (doc1, .error (.notRunning nameOrId))

/-- Options accepted by `startProcess`; `none` models an absent key. -/
structure StartOptions where
  name : Option String := none
  workingDirectory : Option String := none
  environment : Option (List (String × String)) := none
  autostart : Option Bool := none

/-- Everything `startProcess` produces: the updated document, the
returned (and persisted) record, and the environment object passed to
`spawn`. -/
structure StartOutcome where
  doc : List ProcessRecord
  record : ProcessRecord
  spawnEnv : List (String × String)
deriving Repr

/-- `ProcessManager.startProcess`.  The non-deterministic inputs are
parameters: `freshId` is the generated uuid, `now` the clock, `cwd` the
caller's current directory, `baseEnv` the ambient `process.env`, and
`spawnedPid` the pid reported by the OS.  The spawn environment is
`{...process.env, ...options.environment}` while the persisted record
keeps only `options.environment || {}`. -/
def startProcessM (doc : List ProcessRecord) (command : String) (o : StartOptions)
    (freshId : String) (now : Nat) (cwd : String)
    (baseEnv : List (String × String)) (spawnedPid : Nat) (dataDir : String) :
    StartOutcome :=
  let processName := jsOrStr o.name ("process-" ++ toString now)
  let workingDirectory := jsOrStr o.workingDirectory cwd
  let environment := baseEnv ++ o.environment.getD []
  let logFile := dataDir ++ "/logs/" ++ freshId ++ ".log"
  let newRec : ProcessRecord :=
    { id := freshId
      name := processName
      command := command
      pid := some spawnedPid
      status := .running
      startTime := now
      workingDirectory := workingDirectory
      environment := o.environment.getD []
      logFile := some logFile
      autostart := o.autostart.getD false }
  { doc := storageSaveProcess newRec doc, record := newRec, spawnEnv := environment }

/-- The options object `restartProcess` passes to `startProcess`, built
from the old record's configuration. -/
def restartOptions (oldP : ProcessRecord) : StartOptions :=
  { name := some oldP.name
    workingDirectory := some oldP.workingDirectory
    environment := some oldP.environment
    autostart := some oldP.autostart }

/-- Tail of `ProcessManager.restartProcess` once the old record is in
hand and stopped if needed: start a fresh record from the old record's
configuration, then delete the old record. -/
def restartFinish (oldP : ProcessRecord) (freshId : String) (nowStart : Nat)
    (cwd : String) (baseEnv : List (String × String)) (newPid : Nat)
    (dataDir : String) (doc2 : List ProcessRecord) :
    List ProcessRecord × Except PMError ProcessRecord :=
  match storageDeleteProcess
      (startProcessM doc2 oldP.command (restartOptions oldP)
        freshId nowStart cwd baseEnv newPid dataDir).doc oldP.id with
  | .error e =>
    ((startProcessM doc2 oldP.command (restartOptions oldP)
        freshId nowStart cwd baseEnv newPid dataDir).doc, .error e)
  | .ok doc3 =>
    (doc3, .ok (startProcessM doc2 oldP.command (restartOptions oldP)
        freshId nowStart cwd baseEnv newPid dataDir).record)

/-- `ProcessManager.restartProcess`: look the old record up, stop it if
still `running`, start a fresh record from the old record's
configuration, then delete the old record. -/
def restartProcessM (aliveCheck aliveKill : Nat → Bool)
    (doc : List ProcessRecord) (nameOrId : String)
    (freshId : String) (now nowStart : Nat) (cwd : String)
    (baseEnv : List (String × String)) (newPid : Nat) (dataDir : String) :
    List ProcessRecord × Except PMError ProcessRecord :=
  match getProcessM aliveCheck now doc nameOrId with
  | (doc1, .error e) => (doc1, .error e)
  | (doc1, .ok oldP) =>
    if oldP.status = .running then
      match stopProcessM aliveCheck aliveKill now doc1 nameOrId false with
      | (doc2, .error e) => (doc2, .error e)
      | (doc2, .ok _) => restartFinish oldP freshId nowStart cwd baseEnv newPid dataDir doc2
    else restartFinish oldP freshId nowStart cwd baseEnv newPid dataDir doc1

/-- The tail computation of `getLogs` (non-follow branch): split the file
content on `'\n'`, keep `slice(-tail)` when `options.tail` is truthy
(all lines otherwise), and re-join with `'\n'`.  File content is a
`List Char`. -/
def getLogsTail (content : List Char) (tailOpt : Option Nat) : List Char :=
  let lines := content.splitOn '\n'
  let tailLines :=
    match tailOpt with
    | some k => if k = 0 then lines else lines.drop (lines.length - k)
    | none => lines
  List.intercalate ['\n'] tailLines

/-- Result of `getLogs`: a finite string, or the stdout stream of a
`tail -f`-style child replaying `options.tail || 150` lines. -/
inductive LogResult
  | text (content : List Char)
  | followStream (replay : Nat)
deriving DecidableEq, Repr

/-- `ProcessManager.getLogs`.  `readFile` models the file system
(`none` is ENOENT). -/
def getLogsM (alive : Nat → Bool) (now : Nat) (doc : List ProcessRecord)
    (nameOrId : String) (tailOpt : Option Nat) (follow : Bool)
    (readFile : String → Option (List Char)) :
    List ProcessRecord × Except PMError LogResult :=
  match getProcessM alive now doc nameOrId with
  | (doc1, .error e) => (doc1, .error e)
  | (doc1, .ok p) =>
    if jsTruthyLog p.logFile then
      let lf := p.logFile.getD ""
      if follow then
        (doc1, .ok (.followStream (match tailOpt with
          | some k => if k = 0 then 150 else k
          | none => 150)))
      else
        match readFile lf with
        | none => (doc1, .error (.logFileNotFound lf))
        | some content => (doc1, .ok (.text (getLogsTail content tailOpt)))
    else (doc1, .error (.noLogFile nameOrId))

/-- State threaded through the `cleanup` loop: the document, the set of
log files still on disk, the unlink calls attempted so far (in order),
and the two counters that `cleanup` returns. -/
structure CleanupState where
  doc : List ProcessRecord
  files : List String
  attempts : List String
  processes : Nat
  logFiles : Nat
deriving DecidableEq, Repr

/-- Body of the `for (const process of stoppedProcesses)` loop in
`cleanup`: best-effort unlink of the record's log file (missing files
are swallowed), then `deleteProcess` (whose failure aborts the loop). -/
def cleanupLoop (st : CleanupState) :
    List ProcessRecord → Except PMError CleanupState
  | [] => .ok st
  | p :: rest =>
    let st1 :=
      if jsTruthyLog p.logFile then
        let f := p.logFile.getD ""
        if st.files.contains f then
          { st with
            files := st.files.erase f
            attempts := st.attempts ++ [f]
            logFiles := st.logFiles + 1 }
        else { st with attempts := st.attempts ++ [f] }
      else st
    match storageDeleteProcess st1.doc p.id with
    | .error e => .error e
    | .ok d => cleanupLoop { st1 with doc := d, processes := st1.processes + 1 } rest

/-- `ProcessManager.cleanup`: iterate over the records whose status is
not `running`. -/
def cleanupM (doc : List ProcessRecord) (files : List String) :
    Except PMError CleanupState :=
  cleanupLoop ⟨doc, files, [], 0, 0⟩ (doc.filter (fun p => decide (p.status ≠ .running)))

/-- Which records a backup's `processes` field can hold: absent key,
present-but-falsy value, truthy non-array, or a JSON array. -/
inductive BackupProcessesField
  | absent
  | falsyValue
  | truthyNonArray
  | array (l : List ProcessRecord)
deriving DecidableEq, Repr

/-- The backup document `{timestamp, version, processes}`. -/
structure BackupDoc where
  timestamp : Nat
  version : String
  processes : BackupProcessesField
deriving DecidableEq, Repr

/-- `Storage.backup`: snapshot the current document. -/
def storageBackup (doc : List ProcessRecord) (now : Nat) : BackupDoc :=
  { timestamp := now, version := "1.0.0", processes := .array doc }

/-- `Storage.restore`: require `processes` to be a (truthy) array, else
fail with the invalid-format error before any write; on success replace
the whole document and return the number of records. -/
def storageRestore (b : BackupDoc) (doc : List ProcessRecord) :
    List ProcessRecord × Except PMError Nat :=
  match b.processes with
  | .array l => (l, .ok l.length)
  | _ => (doc, .error .invalidFormat)

/-- A raw JavaScript object as an association list; a later entry for the
same key overwrites an earlier one, so `{...a, ...b}` is `a ++ b`. -/
def objGet {V : Type} (o : List (String × V)) (k : String) : Option V :=
  (o.reverse.find? (fun q => q.1 == k)).map (·.2)

/-- JavaScript-style first-of: `some` wins. -/
def jsOrElse {V : Type} (a b : Option V) : Option V :=
  match a with
  | some v => some v
  | none => b

/-- `Storage.updateProcess` over raw JS objects: replace the first record
whose `id` property strictly equals `processId` with
`{...record, ...updates}`; `none` models the thrown not-found error
(no write happens in that case). -/
def storageUpdateProcessJs {V : Type} [DecidableEq V] (processId : V)
    (updates : List (String × V)) :
    List (List (String × V)) → Option (List (List (String × V)))
  | [] => none
  | r :: rest =>
    if objGet r "id" = some processId then some ((r ++ updates) :: rest)
    else (storageUpdateProcessJs processId updates rest).map (r :: ·)

/-! ## Helper lemmas about the storage layer -/

/-- Property lookup after an object spread: the overlay wins. -/
theorem objGet_append {V : Type} (a b : List (String × V)) (k : String) :
    objGet (a ++ b) k = jsOrElse (objGet b k) (objGet a k) := by
  unfold objGet jsOrElse
  rw [List.reverse_append, List.find?_append]
  cases b.reverse.find? (fun q => q.1 == k) <;> simp [Option.or]

/-- Decomposition of a successful `storageUpdateStatus`: the document
splits around the first record whose id matches, and only that record is
rewritten. -/
theorem storageUpdateStatus_eq_ok {processId : String} {u : StatusUpdate}
    {doc doc2 : List ProcessRecord}
    (h : storageUpdateStatus processId u doc = .ok doc2) :
    ∃ pre tgt post,
      doc = pre ++ tgt :: post
      ∧ (∀ q ∈ pre, q.id ≠ processId)
      ∧ tgt.id = processId
      ∧ doc2 = pre ++ applyStatusUpdate tgt u :: post := by
  induction doc generalizing doc2 with
  | nil => simp [storageUpdateStatus] at h
  | cons p rest ih =>
    by_cases hid : p.id = processId
    · refine ⟨[], p, rest, by simp, by simp, hid, ?_⟩
      simp [storageUpdateStatus, hid] at h
      simp [← h]
    · simp only [storageUpdateStatus, hid, if_false] at h
      cases hrec : storageUpdateStatus processId u rest with
      | error e => rw [hrec] at h; simp [Except.map] at h
      | ok d =>
        rw [hrec] at h
        simp [Except.map] at h
        obtain ⟨pre, tgt, post, h1, h2, h3, h4⟩ := ih hrec
        exact ⟨p :: pre, tgt, post, by simp [h1], by
          intro q hq
          rcases List.mem_cons.1 hq with rfl | hq
          · exact hid
          · exact h2 q hq, h3, by simp [← h, h4]⟩

/-- `storageUpdateStatus` succeeds whenever some record has the id. -/
theorem storageUpdateStatus_ok_of_mem {processId : String} (u : StatusUpdate)
    {doc : List ProcessRecord} (h : ∃ q ∈ doc, q.id = processId) :
    ∃ doc2, storageUpdateStatus processId u doc = .ok doc2 := by
  induction doc with
  | nil => simp at h
  | cons p rest ih =>
    by_cases hid : p.id = processId
    · exact ⟨applyStatusUpdate p u :: rest, by simp [storageUpdateStatus, hid]⟩
    · obtain ⟨q, hq, hqid⟩ := h
      rcases List.mem_cons.1 hq with rfl | hq
      · exact absurd hqid hid
      · obtain ⟨d, hd⟩ := ih ⟨q, hq, hqid⟩
        exact ⟨p :: d, by simp [storageUpdateStatus, hid, hd, Except.map]⟩

/-- The update rewrites neither ids nor the order of records. -/
theorem storageUpdateStatus_map_id {processId : String} {u : StatusUpdate}
    {doc doc2 : List ProcessRecord}
    (h : storageUpdateStatus processId u doc = .ok doc2) :
    doc2.map ProcessRecord.id = doc.map ProcessRecord.id := by
  obtain ⟨pre, tgt, post, h1, _, _, h4⟩ := storageUpdateStatus_eq_ok h
  subst h1 h4
  simp [applyStatusUpdate]

/-- After stamping `stoppedBy: 'system'` on the record with a given id,
every record carrying that id (unique, by the id-uniqueness invariant)
is stopped and system-stamped. -/
theorem storageUpdateStatus_system_lookup {processId : String} {now : Nat}
    {doc doc2 : List ProcessRecord}
    (h : storageUpdateStatus processId (stoppedBySystem now) doc = .ok doc2)
    (hnodup : (doc.map ProcessRecord.id).Nodup) :
    ∀ r ∈ doc2, r.id = processId → r.status = .stopped ∧ r.stoppedBy = some "system" := by
  obtain ⟨pre, tgt, post, h1, h2, h3, h4⟩ := storageUpdateStatus_eq_ok h
  subst h1 h4
  intro r hr hrid
  rcases List.mem_append.1 hr with hr | hr
  · exact absurd hrid (h2 r hr)
  · rcases List.mem_cons.1 hr with rfl | hr
    · exact ⟨rfl, rfl⟩
    · exfalso
      have hpost : (tgt.id :: post.map ProcessRecord.id).Nodup := by
        have := hnodup
        rw [List.map_append, List.map_cons] at this
        exact this.of_append_right
      have : tgt.id ∉ post.map ProcessRecord.id := (List.nodup_cons.1 hpost).1
      exact this (by rw [h3, ← hrid]; exact List.mem_map_of_mem _ hr)

/-- `storageSaveProcess` with a fresh id is a push. -/
theorem storageSaveProcess_push {newRec : ProcessRecord} {doc : List ProcessRecord}
    (h : newRec.id ∉ doc.map ProcessRecord.id) :
    storageSaveProcess newRec doc = doc ++ [newRec] := by
  induction doc with
  | nil => rfl
  | cons p rest ih =>
    have hne : p.id ≠ newRec.id := by
      intro he
      exact h (by rw [← he]; exact List.mem_map_of_mem _ (by simp))
    simp only [storageSaveProcess, hne, if_false, List.cons_append]
    rw [ih (fun hm => h (by simp [List.mem_map] at hm ⊢; exact Or.inr hm))]

/-- `storageDeleteProcess` succeeds exactly when some record carries the
id, and then returns the filtered document. -/
theorem storageDeleteProcess_ok {doc : List ProcessRecord} {processId : String}
    (h : ∃ q ∈ doc, q.id = processId) :
    storageDeleteProcess doc processId
      = .ok (doc.filter (fun p => decide (p.id ≠ processId))) := by
  unfold storageDeleteProcess
  obtain ⟨q, hq, hqid⟩ := h
  have hlt : (doc.filter (fun p => decide (p.id ≠ processId))).length < doc.length := by
    rw [List.length_filter_lt_length_iff_exists]
    exact ⟨q, hq, by simp [hqid]⟩
  simp only [Nat.ne_of_lt hlt, if_false]

/-! ## Helper lemmas about the controller -/

/-- Whenever the lookup finds a record, `getProcess` resolves with either
the record itself or its copy patched to `stopped`, and never changes the
id column of the document. -/
theorem getProcessM_found {alive : Nat → Bool} {now : Nat} {doc : List ProcessRecord}
    {nameOrId : String} {p : ProcessRecord}
    (hfind : storageGetProcess doc nameOrId = some p) :
    ∃ doc1 p', getProcessM alive now doc nameOrId = (doc1, .ok p')
      ∧ (p' = p ∨ p' = { p with status := Status.stopped })
      ∧ doc1.map ProcessRecord.id = doc.map ProcessRecord.id := by
  unfold getProcessM
  rw [hfind]
  dsimp only
  cases hp : p.pid with
  | none => exact ⟨doc, p, rfl, Or.inl rfl, rfl⟩
  | some v =>
    dsimp only
    by_cases hc : p.status = .running ∧ v ≠ 0
    · rw [if_pos hc]
      by_cases ha : alive v = true
      · rw [if_pos ha]
        exact ⟨doc, p, rfl, Or.inl rfl, rfl⟩
      · rw [if_neg ha]
        obtain ⟨doc2, hd2⟩ := storageUpdateStatus_ok_of_mem (stoppedBySystem now)
          ⟨p, List.mem_of_find?_eq_some hfind, rfl⟩
        rw [hd2]
        exact ⟨doc2, _, rfl, Or.inr rfl, storageUpdateStatus_map_id hd2⟩
    · rw [if_neg hc]
      exact ⟨doc, p, rfl, Or.inl rfl, rfl⟩

/-- Exact outcome of `getProcess` on a `running` record whose pid the OS
probe reports dead: the persisted record is stamped
`stopped / stoppedBy: 'system'` and the patched copy is returned. -/
theorem getProcessM_dead_eq {alive : Nat → Bool} {now : Nat} {doc : List ProcessRecord}
    {nameOrId : String} {p : ProcessRecord} {v : Nat}
    (hfind : storageGetProcess doc nameOrId = some p)
    (hrun : p.status = .running) (hpid : p.pid = some v) (hv : v ≠ 0)
    (hdead : alive v = false) :
    ∃ doc2, storageUpdateStatus p.id (stoppedBySystem now) doc = .ok doc2
      ∧ getProcessM alive now doc nameOrId = (doc2, .ok { p with status := Status.stopped }) := by
  obtain ⟨doc2, hd2⟩ := storageUpdateStatus_ok_of_mem (stoppedBySystem now)
    ⟨p, List.mem_of_find?_eq_some hfind, rfl⟩
  refine ⟨doc2, hd2, ?_⟩
  unfold getProcessM
  rw [hfind]
  dsimp only
  rw [hpid]
  dsimp only
  rw [if_pos ⟨hrun, hv⟩, if_neg (by simp [hdead]), hd2]

/-- `getProcess` never changes the id column of the document. -/
theorem getProcessM_fst_ids (alive : Nat → Bool) (now : Nat)
    (doc : List ProcessRecord) (nameOrId : String) :
    ((getProcessM alive now doc nameOrId).1).map ProcessRecord.id
      = doc.map ProcessRecord.id := by
  unfold getProcessM
  cases hfind : storageGetProcess doc nameOrId with
  | none => rfl
  | some p =>
    dsimp only
    cases hp : p.pid with
    | none => rfl
    | some v =>
      dsimp only
      by_cases hc : p.status = .running ∧ v ≠ 0
      · rw [if_pos hc]
        by_cases ha : alive v = true
        · rw [if_pos ha]
        · rw [if_neg ha]
          cases hu : storageUpdateStatus p.id (stoppedBySystem now) doc with
          | error e => rfl
          | ok doc2 => exact storageUpdateStatus_map_id hu
      · rw [if_neg hc]

/-- `stopProcess` never changes the id column of the document. -/
theorem stopProcessM_fst_ids (aliveCheck aliveKill : Nat → Bool) (now : Nat)
    (doc : List ProcessRecord) (nameOrId : String) (force : Bool) :
    ((stopProcessM aliveCheck aliveKill now doc nameOrId force).1).map ProcessRecord.id
      = doc.map ProcessRecord.id := by
  unfold stopProcessM
  cases hg : getProcessM aliveCheck now doc nameOrId with
  | mk doc1 res =>
    have hids : doc1.map ProcessRecord.id = doc.map ProcessRecord.id := by
      have h := getProcessM_fst_ids aliveCheck now doc nameOrId
      rw [hg] at h
      exact h
    cases res with
    | error e => exact hids
    | ok p =>
      dsimp only
      by_cases hs : p.status = .running
      · rw [if_pos hs]
        cases hp : p.pid with
        | none => exact hids
        | some v =>
          dsimp only
          by_cases hk : aliveKill v = true
          · rw [if_pos hk]
            cases hu : storageUpdateStatus p.id (stoppedByUser now) doc1 with
            | error e => exact hids
            | ok doc2 => exact (storageUpdateStatus_map_id hu).trans hids
          · rw [if_neg hk]
            cases hu : storageUpdateStatus p.id (stoppedBySystem now) doc1 with
            | error e => exact hids
            | ok doc2 => exact (storageUpdateStatus_map_id hu).trans hids
      · rw [if_neg hs]
        exact hids

/-! ## Claim theorems -/

/-- A sample record used to instantiate witnesses. -/
def demoRec : ProcessRecord :=
  { id := "id-demo"
    name := "demo"
    command := "sleep 10"
    pid := none
    status := .stopped
    startTime := 0
    workingDirectory := "/tmp"
    environment := []
    logFile := none
    autostart := false }

/-- C6: restoring from a backup document whose `processes` field is not an
array fails with the invalid-format error and performs no write, leaving
the persisted document exactly as it was. -/
theorem restore_invalid_format_leaves_doc (b : BackupDoc) (doc : List ProcessRecord)
    (h : ∀ l, b.processes ≠ BackupProcessesField.array l) :
    storageRestore b doc = (doc, .error .invalidFormat) := by
  unfold storageRestore
  cases hb : b.processes with
  | absent => rfl
  | falsyValue => rfl
  | truthyNonArray => rfl
  | array l => exact absurd hb (h l)

/-- Witness for C6 at the backup document `{invalid: 'data'}` (its
`processes` field is absent). -/
theorem restore_invalid_format_witness :
    storageRestore ⟨0, "1.0.0", .absent⟩ [demoRec] = ([demoRec], .error .invalidFormat) :=
  restore_invalid_format_leaves_doc ⟨0, "1.0.0", .absent⟩ [demoRec]
    (fun l h => by simp at h)

/-- C7: `backup` followed by `restore` on an untouched document restores
the document list exactly (hence the same set of records), and reports
the original record count. -/
theorem backup_restore_roundtrip (doc : List ProcessRecord) (now : Nat) :
    storageRestore (storageBackup doc now) doc = (doc, .ok doc.length) := rfl

/-- C8: the child is spawned with `{...process.env, ...options.environment}`
(the user overlay wins on key conflicts), while the persisted record's
`environment` field holds only the user overlay (`{}` when absent), never
the inherited base environment. -/
theorem start_env_overlay_wins (doc : List ProcessRecord) (command : String)
    (o : StartOptions) (freshId : String) (now : Nat) (cwd : String)
    (baseEnv : List (String × String)) (spawnedPid : Nat) (dataDir : String) :
    (startProcessM doc command o freshId now cwd baseEnv spawnedPid dataDir).spawnEnv
        = baseEnv ++ o.environment.getD []
    ∧ (∀ k, objGet (startProcessM doc command o freshId now cwd baseEnv spawnedPid dataDir).spawnEnv k
        = jsOrElse (objGet (o.environment.getD []) k) (objGet baseEnv k))
    ∧ (startProcessM doc command o freshId now cwd baseEnv spawnedPid dataDir).record.environment
        = o.environment.getD [] :=
  ⟨rfl, fun k => objGet_append baseEnv (o.environment.getD []) k, rfl⟩

/-- C10: `Storage.updateProcess` splits the document around the first
record whose `id` property equals the given id, rewrites only that record
to `{...record, ...updates}` (keys absent from `updates` keep their
previous value, keys present are overwritten or added), leaves every
other record byte-for-byte in place, and fails without writing when no
record has the id. -/
theorem updateProcessJs_frame {V : Type} [DecidableEq V]
    (doc : List (List (String × V))) (processId : V) (updates : List (String × V)) :
    (∀ doc', storageUpdateProcessJs processId updates doc = some doc' →
        ∃ pre tgt post,
          doc = pre ++ tgt :: post
          ∧ doc' = pre ++ (tgt ++ updates) :: post
          ∧ (∀ q ∈ pre, objGet q "id" ≠ some processId)
          ∧ objGet tgt "id" = some processId
          ∧ (∀ k, objGet (tgt ++ updates) k
              = jsOrElse (objGet updates k) (objGet tgt k)))
    ∧ ((∀ r ∈ doc, objGet r "id" ≠ some processId) →
        storageUpdateProcessJs processId updates doc = none) := by
  induction doc with
  | nil =>
    refine ⟨?_, ?_⟩
    · intro doc' h
      simp [storageUpdateProcessJs] at h
    · intro _
      rfl
  | cons r rest ih =>
    refine ⟨?_, ?_⟩
    · intro doc' h
      by_cases hid : objGet r "id" = some processId
      · simp only [storageUpdateProcessJs, if_pos hid, Option.some_inj] at h
        refine ⟨[], r, rest, by simp, by simp [← h], by simp, hid,
          fun k => objGet_append r updates k⟩
      · simp only [storageUpdateProcessJs, if_neg hid, Option.map_eq_some'] at h
        obtain ⟨d, hd, rfl⟩ := h
        obtain ⟨pre, tgt, post, h1, h2, h3, h4, h5⟩ := ih.1 d hd
        refine ⟨r :: pre, tgt, post, by simp [h1], by simp [h2], ?_, h4, h5⟩
        intro q hq
        rcases List.mem_cons.1 hq with rfl | hq
        · exact hid
        · exact h3 q hq
    · intro hall
      have hid : objGet r "id" ≠ some processId := hall r (by simp)
      simp only [storageUpdateProcessJs, if_neg hid]
      rw [ih.2 (fun q hq => hall q (by simp [hq]))]
      rfl

/-- Witness for C10 on a two-record document: update the record with id
`"a"`, overwriting `status` and keeping `name`. -/
theorem updateProcessJs_frame_witness :
    (∀ doc', storageUpdateProcessJs "a" [("status", "stopped")]
        [[("id", "a"), ("name", "p1"), ("status", "running")], [("id", "b")]] = some doc' →
        ∃ pre tgt post,
          [[("id", "a"), ("name", "p1"), ("status", "running")], [("id", "b")]]
              = pre ++ tgt :: post
          ∧ doc' = pre ++ (tgt ++ [("status", "stopped")]) :: post
          ∧ (∀ q ∈ pre, objGet q "id" ≠ some "a")
          ∧ objGet tgt "id" = some "a"
          ∧ (∀ k, objGet (tgt ++ [("status", "stopped")]) k
              = jsOrElse (objGet [("status", "stopped")] k) (objGet tgt k)))
    ∧ ((∀ r ∈ [[("id", "a"), ("name", "p1"), ("status", "running")], [("id", "b")]],
          objGet r "id" ≠ some "a") →
        storageUpdateProcessJs "a" [("status", "stopped")]
          [[("id", "a"), ("name", "p1"), ("status", "running")], [("id", "b")]] = none) :=
  updateProcessJs_frame
    [[("id", "a"), ("name", "p1"), ("status", "running")], [("id", "b")]]
    "a" [("status", "stopped")]

/-- C2: on a persisted `running` record with a (truthy) pid, `getProcess`
reconciles against the OS: when the liveness probe reports dead, the
returned record carries `status = stopped` and the persisted document now
stores that record as `stopped` (stamped `stoppedBy: 'system'`); when the
probe reports alive, the record and the document are returned unchanged. -/
theorem getProcess_reconciles_dead_running (alive : Nat → Bool) (now : Nat)
    (doc : List ProcessRecord) (nameOrId : String) (p : ProcessRecord) (v : Nat)
    (hfind : storageGetProcess doc nameOrId = some p)
    (hrun : p.status = .running) (hpid : p.pid = some v) (hv : v ≠ 0)
    (hnodup : (doc.map ProcessRecord.id).Nodup) :
    (alive v = false →
      (getProcessM alive now doc nameOrId).2 = .ok { p with status := Status.stopped }
      ∧ ∀ r ∈ (getProcessM alive now doc nameOrId).1, r.id = p.id →
          r.status = .stopped ∧ r.stoppedBy = some "system")
    ∧ (alive v = true → getProcessM alive now doc nameOrId = (doc, .ok p)) := by
  constructor
  · intro hdead
    obtain ⟨doc2, hupd, heq⟩ := getProcessM_dead_eq hfind hrun hpid hv hdead
    rw [heq]
    exact ⟨rfl, storageUpdateStatus_system_lookup hupd hnodup⟩
  · intro halive
    unfold getProcessM
    rw [hfind]
    dsimp only
    rw [hpid]
    dsimp only
    rw [if_pos ⟨hrun, hv⟩, if_pos halive]

/-- Witness for C2: a single running record with pid 5 and a dead OS probe. -/
theorem getProcess_reconciles_witness :
    ((fun _ => false : Nat → Bool) 5 = false →
      (getProcessM (fun _ => false) 7 [{ demoRec with status := .running, pid := some 5 }]
          "demo").2
        = .ok { { demoRec with status := Status.running, pid := some 5 }
                  with status := Status.stopped }
      ∧ ∀ r ∈ (getProcessM (fun _ => false) 7
            [{ demoRec with status := .running, pid := some 5 }] "demo").1,
          r.id = ({ demoRec with status := Status.running, pid := some 5 } : ProcessRecord).id →
            r.status = .stopped ∧ r.stoppedBy = some "system")
    ∧ ((fun _ => false : Nat → Bool) 5 = true →
        getProcessM (fun _ => false) 7 [{ demoRec with status := .running, pid := some 5 }]
            "demo"
          = ([{ demoRec with status := .running, pid := some 5 }],
             .ok { demoRec with status := .running, pid := some 5 })) :=
  getProcess_reconciles_dead_running (fun _ => false) 7
    [{ demoRec with status := .running, pid := some 5 }] "demo"
    { demoRec with status := .running, pid := some 5 } 5
    (by decide) rfl rfl (by decide) (by decide)

/-- C1 (amended): `stop` on a persisted `running` record whose pid the OS
probe reports dead does NOT resolve: the inner `getProcess` lookup first
reconciles the record to `stopped / stoppedBy: 'system'`, so the
subsequent status check raises the not-running error.  The record is
nevertheless left persisted with `status = stopped` and
`stoppedBy = 'system'`. -/
theorem stop_dead_pid_raises_but_marks_system (aliveCheck aliveKill : Nat → Bool)
    (now : Nat) (doc : List ProcessRecord) (nameOrId : String) (force : Bool)
    (p : ProcessRecord) (v : Nat)
    (hfind : storageGetProcess doc nameOrId = some p)
    (hrun : p.status = .running) (hpid : p.pid = some v) (hv : v ≠ 0)
    (hdead : aliveCheck v = false)
    (hnodup : (doc.map ProcessRecord.id).Nodup) :
    (stopProcessM aliveCheck aliveKill now doc nameOrId force).2
        = .error (.notRunning nameOrId)
    ∧ ∀ r ∈ (stopProcessM aliveCheck aliveKill now doc nameOrId force).1,
        r.id = p.id → r.status = .stopped ∧ r.stoppedBy = some "system" := by
  obtain ⟨doc2, hupd, heq⟩ :=
    @getProcessM_dead_eq aliveCheck now doc nameOrId p v hfind hrun hpid hv hdead
  unfold stopProcessM
  rw [heq]
  dsimp only
  rw [if_neg (by decide : ¬(Status.stopped = Status.running))]
  exact ⟨rfl, storageUpdateStatus_system_lookup hupd hnodup⟩

/-- Witness for the amended C1: one running record with pid 5, both OS
probes dead. -/
theorem stop_dead_pid_witness :
    ((stopProcessM (fun _ => false) (fun _ => false) 7
        [{ demoRec with status := .running, pid := some 5 }] "demo" false).2
      = .error (.notRunning "demo"))
    ∧ ∀ r ∈ (stopProcessM (fun _ => false) (fun _ => false) 7
        [{ demoRec with status := .running, pid := some 5 }] "demo" false).1,
        r.id = ({ demoRec with status := Status.running, pid := some 5 } : ProcessRecord).id →
          r.status = .stopped ∧ r.stoppedBy = some "system" :=
  stop_dead_pid_raises_but_marks_system (fun _ => false) (fun _ => false) 7
    [{ demoRec with status := .running, pid := some 5 }] "demo" false
    { demoRec with status := .running, pid := some 5 } 5
    (by decide) rfl rfl (by decide) (by decide) (by decide)

/-- Counterexample to C1 as stated: on a persisted `running` record whose
pid the OS reports dead (`isAlive` ≡ false), `stop` raises the
not-running error instead of resolving successfully. -/
theorem stop_dead_pid_claim_cex :
    (stopProcessM (fun _ => false) (fun _ => false) 7
        [{ demoRec with id := "id-c1", name := "p-c1", status := .running, pid := some 5 }]
        "p-c1" false).2
      = .error (.notRunning "p-c1") := by rfl

/-- C4: on a log file whose content is `N` newline-delimited lines
(`N ≥ k`, `k` truthy), `getLogs` with `{tail: k}` returns exactly the
last `k` lines joined with newline — the returned line list has length
exactly `k`, so no trailing blank line is introduced. -/
theorem getLogs_tail_last_k (alive : Nat → Bool) (now : Nat) (doc : List ProcessRecord)
    (nameOrId : String) (p : ProcessRecord) (lf : String) (ls : List (List Char)) (k : Nat)
    (readFile : String → Option (List Char))
    (hfind : storageGetProcess doc nameOrId = some p)
    (hlf : p.logFile = some lf) (hne : lf ≠ "")
    (hread : readFile lf = some (List.intercalate ['\n'] ls))
    (hnl : ∀ l ∈ ls, '\n' ∉ l) (hlsne : ls ≠ [])
    (hk0 : k ≠ 0) (hkle : k ≤ ls.length) :
    (getLogsM alive now doc nameOrId (some k) false readFile).2
      = .ok (.text (List.intercalate ['\n'] (ls.drop (ls.length - k))))
    ∧ (ls.drop (ls.length - k)).length = k := by
  obtain ⟨doc1, p', heq, hcase, _⟩ := @getProcessM_found alive now doc nameOrId p hfind
  have hlf' : p'.logFile = some lf := by
    rcases hcase with rfl | rfl
    · exact hlf
    · exact hlf
  constructor
  · unfold getLogsM
    rw [heq]
    dsimp only
    rw [hlf']
    rw [if_pos (by simp [jsTruthyLog, hne] : jsTruthyLog (some lf) = true)]
    dsimp only [Option.getD]
    rw [hread]
    dsimp only
    unfold getLogsTail
    rw [List.splitOn_intercalate ls '\n' hnl hlsne]
    simp [hk0]
  · rw [List.length_drop, Nat.sub_sub_self hkle]

/-- Witness data for C4: a five-line log file. -/
def c4lines : List (List Char) := [['a'], ['b'], ['c'], ['d'], ['e']]

/-- Witness file system for C4: only `/log` exists. -/
def c4read : String → Option (List Char) :=
  fun s => if s = "/log" then some (List.intercalate ['\n'] c4lines) else none

/-- Witness record for C4. -/
def c4rec : ProcessRecord := { demoRec with name := "p-logs", logFile := some "/log" }

/-- Witness for C4: `getLogs('p-logs', {tail: 3})` on the 5-line file
returns exactly the last 3 lines. -/
theorem getLogs_tail_witness :
    (getLogsM (fun _ => true) 0 [c4rec] "p-logs" (some 3) false c4read).2
      = .ok (.text (List.intercalate ['\n'] (c4lines.drop (c4lines.length - 3))))
    ∧ (c4lines.drop (c4lines.length - 3)).length = 3 :=
  getLogs_tail_last_k (fun _ => true) 0 [c4rec] "p-logs" c4rec "/log" c4lines 3 c4read
    rfl rfl (by decide) rfl (by decide) (by decide) (by decide) (by decide)

/-- C9: with `follow` false and no (truthy) `tail` count, `getLogs`
returns the log file's entire content unchanged — splitting the content
on newline and re-joining with newline is the identity. -/
theorem getLogs_no_tail_full_content (alive : Nat → Bool) (now : Nat)
    (doc : List ProcessRecord) (nameOrId : String) (p : ProcessRecord) (lf : String)
    (content : List Char) (tailOpt : Option Nat) (readFile : String → Option (List Char))
    (hfind : storageGetProcess doc nameOrId = some p)
    (hlf : p.logFile = some lf) (hne : lf ≠ "")
    (hread : readFile lf = some content)
    (htail : tailOpt = none ∨ tailOpt = some 0) :
    (getLogsM alive now doc nameOrId tailOpt false readFile).2 = .ok (.text content) := by
  obtain ⟨doc1, p', heq, hcase, _⟩ := @getProcessM_found alive now doc nameOrId p hfind
  have hlf' : p'.logFile = some lf := by
    rcases hcase with rfl | rfl
    · exact hlf
    · exact hlf
  unfold getLogsM
  rw [heq]
  dsimp only
  rw [hlf']
  rw [if_pos (by simp [jsTruthyLog, hne] : jsTruthyLog (some lf) = true)]
  dsimp only [Option.getD]
  rw [hread]
  dsimp only
  unfold getLogsTail
  rcases htail with rfl | rfl
  · simp [List.intercalate_splitOn content '\n']
  · simp [List.intercalate_splitOn content '\n']

/-- Witness file system for C9: only `/log9` exists, holding `ab\ncd`. -/
def c9read : String → Option (List Char) :=
  fun s => if s = "/log9" then some ['a', 'b', '\n', 'c', 'd'] else none

/-- Witness record for C9. -/
def c9rec : ProcessRecord := { demoRec with name := "p-full", logFile := some "/log9" }

/-- Witness for C9: `getLogs` with no tail returns the whole two-line
content unchanged. -/
theorem getLogs_no_tail_witness :
    (getLogsM (fun _ => true) 0 [c9rec] "p-full" none false c9read).2
      = .ok (.text ['a', 'b', '\n', 'c', 'd']) :=
  getLogs_no_tail_full_content (fun _ => true) 0 [c9rec] "p-full" c9rec "/log9"
    ['a', 'b', '\n', 'c', 'd'] none c9read rfl rfl (by decide) rfl (Or.inl rfl)

/-- Outcome of the restart tail on a document that does not yet contain
the fresh id but still contains the old id: the fresh record is pushed,
every record with the old id is dropped, and the new record is
returned. -/
theorem restartFinish_spec (oldP : ProcessRecord) (freshId : String) (nowStart : Nat)
    (cwd : String) (baseEnv : List (String × String)) (newPid : Nat) (dataDir : String)
    (doc2 : List ProcessRecord)
    (hfresh : freshId ∉ doc2.map ProcessRecord.id)
    (hmem : ∃ q ∈ doc2, q.id = oldP.id) :
    ∃ newRec, restartFinish oldP freshId nowStart cwd baseEnv newPid dataDir doc2
        = (doc2.filter (fun p => decide (p.id ≠ oldP.id)) ++ [newRec], .ok newRec)
      ∧ newRec.id = freshId
      ∧ newRec.command = oldP.command
      ∧ newRec.name = jsOrStr (some oldP.name) ("process-" ++ toString nowStart)
      ∧ newRec.workingDirectory = jsOrStr (some oldP.workingDirectory) cwd
      ∧ newRec.environment = oldP.environment
      ∧ newRec.autostart = oldP.autostart := by
  obtain ⟨q, hq, hqid⟩ := hmem
  have hdoc : (startProcessM doc2 oldP.command (restartOptions oldP)
        freshId nowStart cwd baseEnv newPid dataDir).doc
      = doc2 ++ [(startProcessM doc2 oldP.command (restartOptions oldP)
        freshId nowStart cwd baseEnv newPid dataDir).record] :=
    storageSaveProcess_push (by exact hfresh)
  have hmem2 : ∃ r ∈ (startProcessM doc2 oldP.command (restartOptions oldP)
        freshId nowStart cwd baseEnv newPid dataDir).doc, r.id = oldP.id := by
    rw [hdoc]
    exact ⟨q, List.mem_append_left _ hq, hqid⟩
  have hdel := storageDeleteProcess_ok hmem2
  refine ⟨(startProcessM doc2 oldP.command (restartOptions oldP)
      freshId nowStart cwd baseEnv newPid dataDir).record, ?_, rfl, rfl, rfl, rfl, rfl, rfl⟩
  unfold restartFinish
  rw [hdel, hdoc, List.filter_append]
  have hne : freshId ≠ oldP.id := fun he => hfresh (he ▸ (hqid ▸ List.mem_map_of_mem ProcessRecord.id hq))
  have hid : (startProcessM doc2 oldP.command (restartOptions oldP)
      freshId nowStart cwd baseEnv newPid dataDir).record.id = freshId := rfl
  simp [hid, hne]

/-- Common case analysis for C3: once the restart tail runs on a document
with the same id column as the original, the returned record is fresh and
configuration-preserving, and the old id is gone. -/
theorem restartFinish_case (oldP p' newRec : ProcessRecord)
    (freshId : String) (nowStart : Nat) (cwd : String)
    (baseEnv : List (String × String)) (newPid : Nat) (dataDir : String)
    (doc docX docF : List ProcessRecord)
    (hpid : p'.id = oldP.id) (hpname : p'.name = oldP.name)
    (hpcmd : p'.command = oldP.command) (hpwd : p'.workingDirectory = oldP.workingDirectory)
    (hpenv : p'.environment = oldP.environment) (hpauto : p'.autostart = oldP.autostart)
    (hids : docX.map ProcessRecord.id = doc.map ProcessRecord.id)
    (hfresh : freshId ∉ doc.map ProcessRecord.id)
    (hmemdoc : oldP.id ∈ doc.map ProcessRecord.id)
    (hfin : restartFinish p' freshId nowStart cwd baseEnv newPid dataDir docX
        = (docF, .ok newRec)) :
    newRec.id ≠ oldP.id
    ∧ (∀ r ∈ docF, r.id ≠ oldP.id)
    ∧ newRec.command = oldP.command
    ∧ (oldP.name ≠ "" → newRec.name = oldP.name)
    ∧ (oldP.workingDirectory ≠ "" → newRec.workingDirectory = oldP.workingDirectory)
    ∧ newRec.environment = oldP.environment
    ∧ newRec.autostart = oldP.autostart := by
  have hfreshX : freshId ∉ docX.map ProcessRecord.id := by rw [hids]; exact hfresh
  have hmemX : ∃ q ∈ docX, q.id = p'.id := by
    rw [hpid]
    have hin : oldP.id ∈ docX.map ProcessRecord.id := by rw [hids]; exact hmemdoc
    obtain ⟨q, hq, hqid⟩ := List.mem_map.1 hin
    exact ⟨q, hq, hqid⟩
  obtain ⟨R, hfinEq, hRid, hRcmd, hRname, hRwd, hRenv, hRauto⟩ :=
    restartFinish_spec p' freshId nowStart cwd baseEnv newPid dataDir docX hfreshX hmemX
  rw [hfinEq] at hfin
  have hdocF : docX.filter (fun p => decide (p.id ≠ p'.id)) ++ [R] = docF :=
    congrArg Prod.fst hfin
  have hRnew : R = newRec := by
    have h2 := congrArg Prod.snd hfin
    simpa using h2
  have hne : freshId ≠ oldP.id := fun he => hfresh (he ▸ hmemdoc)
  subst hRnew
  refine ⟨?_, ?_, ?_, ?_, ?_, ?_, ?_⟩
  · rw [hRid]; exact hne
  · intro r hr
    rw [← hdocF] at hr
    rcases List.mem_append.1 hr with hr | hr
    · have hfilt := List.of_mem_filter hr
      simp only [decide_eq_true_eq] at hfilt
      rw [hpid] at hfilt
      exact hfilt
    · rcases List.mem_singleton.1 hr with rfl
      rw [hRid]; exact hne
  · rw [hRcmd, hpcmd]
  · intro hname
    rw [hRname, hpname]
    simp [jsOrStr, hname]
  · intro hwd
    rw [hRwd, hpwd]
    simp [jsOrStr, hwd]
  · rw [hRenv, hpenv]
  · rw [hRauto, hpauto]

/-- C3 (amended): whenever `restartProcess` succeeds, the new record
unconditionally has a fresh id (different from the old record's id),
every record with the old id is removed from storage, and `command`,
`environment` and `autostart` are preserved exactly; `name` and
`workingDirectory` are additionally preserved exactly whenever they are
non-empty (JavaScript-truthy) strings — an empty one is replaced by
`startProcess`'s default. -/
theorem restart_new_id_preserves_config (aliveCheck aliveKill : Nat → Bool)
    (doc : List ProcessRecord) (nameOrId freshId : String) (now nowStart : Nat)
    (cwd : String) (baseEnv : List (String × String)) (newPid : Nat) (dataDir : String)
    (oldP newRec : ProcessRecord) (docF : List ProcessRecord)
    (hfind : storageGetProcess doc nameOrId = some oldP)
    (hfresh : freshId ∉ doc.map ProcessRecord.id)
    (hsucc : restartProcessM aliveCheck aliveKill doc nameOrId freshId now nowStart
        cwd baseEnv newPid dataDir = (docF, .ok newRec)) :
    newRec.id ≠ oldP.id
    ∧ (∀ r ∈ docF, r.id ≠ oldP.id)
    ∧ newRec.command = oldP.command
    ∧ (oldP.name ≠ "" → newRec.name = oldP.name)
    ∧ (oldP.workingDirectory ≠ "" → newRec.workingDirectory = oldP.workingDirectory)
    ∧ newRec.environment = oldP.environment
    ∧ newRec.autostart = oldP.autostart := by
  obtain ⟨doc1, p', hgeq, hcase, hids1⟩ :=
    @getProcessM_found aliveCheck now doc nameOrId oldP hfind
  have hpid : p'.id = oldP.id := by rcases hcase with rfl | rfl <;> rfl
  have hpname : p'.name = oldP.name := by rcases hcase with rfl | rfl <;> rfl
  have hpcmd : p'.command = oldP.command := by rcases hcase with rfl | rfl <;> rfl
  have hpwd : p'.workingDirectory = oldP.workingDirectory := by
    rcases hcase with rfl | rfl <;> rfl
  have hpenv : p'.environment = oldP.environment := by rcases hcase with rfl | rfl <;> rfl
  have hpauto : p'.autostart = oldP.autostart := by rcases hcase with rfl | rfl <;> rfl
  have hmemdoc : oldP.id ∈ doc.map ProcessRecord.id :=
    List.mem_map_of_mem _ (List.mem_of_find?_eq_some hfind)
  unfold restartProcessM at hsucc
  rw [hgeq] at hsucc
  dsimp only at hsucc
  by_cases hs : p'.status = .running
  · rw [if_pos hs] at hsucc
    cases hstop : stopProcessM aliveCheck aliveKill now doc1 nameOrId false with
    | mk doc2 res =>
      rw [hstop] at hsucc
      cases res with
      | error e => simp at hsucc
      | ok q =>
        dsimp only at hsucc
        have hids2 : doc2.map ProcessRecord.id = doc.map ProcessRecord.id := by
          have h := stopProcessM_fst_ids aliveCheck aliveKill now doc1 nameOrId false
          rw [hstop] at h
          exact h.trans hids1
        exact restartFinish_case oldP p' newRec freshId nowStart cwd baseEnv newPid dataDir
          doc doc2 docF hpid hpname hpcmd hpwd hpenv hpauto hids2 hfresh hmemdoc hsucc
  · rw [if_neg hs] at hsucc
    exact restartFinish_case oldP p' newRec freshId nowStart cwd baseEnv newPid dataDir
      doc doc1 docF hpid hpname hpcmd hpwd hpenv hpauto hids1 hfresh hmemdoc hsucc

/-- Witness record for C3. -/
def c3wrec : ProcessRecord := { demoRec with id := "id-c3w", name := "p-c3w" }

/-- The record the witness restart produces. -/
def c3wNew : ProcessRecord :=
  { id := "id-c3n"
    name := "p-c3w"
    command := "sleep 10"
    pid := some 7
    status := .running
    startTime := 2
    workingDirectory := "/tmp"
    environment := []
    logFile := some "/d/logs/id-c3n.log"
    autostart := false }

/-- Witness for the amended C3: restarting a stopped record with a fresh
uuid preserves the configuration and removes the old id. -/
theorem restart_witness :
    c3wNew.id ≠ c3wrec.id
    ∧ (∀ r ∈ [c3wNew], r.id ≠ c3wrec.id)
    ∧ c3wNew.command = c3wrec.command
    ∧ (c3wrec.name ≠ "" → c3wNew.name = c3wrec.name)
    ∧ (c3wrec.workingDirectory ≠ "" → c3wNew.workingDirectory = c3wrec.workingDirectory)
    ∧ c3wNew.environment = c3wrec.environment
    ∧ c3wNew.autostart = c3wrec.autostart :=
  restart_new_id_preserves_config (fun _ => true) (fun _ => true) [c3wrec] "p-c3w" "id-c3n"
    1 2 "/cwd" [] 7 "/d" c3wrec c3wNew [c3wNew]
    rfl (by decide) (by rfl)

/-- Record with an empty (JavaScript-falsy) name and working directory,
as a crafted backup can inject. -/
def c3rec : ProcessRecord :=
  { demoRec with id := "id-c3", name := "", workingDirectory := "" }

/-- Counterexample to C3 as stated: restarting a record whose `name` and
`workingDirectory` are empty strings succeeds but replaces the name with
the default `process-<timestamp>` and the working directory with the
caller's current directory instead of preserving them exactly. -/
theorem restart_name_wd_claim_cex :
    ((restartProcessM (fun _ => true) (fun _ => true) [c3rec] "id-c3" "id-new"
        1 2 "/cwd" [] 7 "/d").2).map (fun r => (r.name, r.workingDirectory))
      = .ok ("process-2", "/cwd")
    ∧ c3rec.name = ""
    ∧ c3rec.workingDirectory = ""
    ∧ ("process-2" : String) ≠ ""
    ∧ ("/cwd" : String) ≠ "" :=
  ⟨by rfl, rfl, rfl, by decide, by decide⟩

/-- Invariant of the `cleanup` loop: processing a batch whose ids are
distinct and all present in the document deletes exactly those ids,
attempts one unlink per batch record with a (truthy) log file, counts
every batch record, and counts an unlink success exactly when a file
disappears. -/
theorem cleanupLoop_spec (l : List ProcessRecord) :
    ∀ st : CleanupState,
      (∀ p ∈ l, ∃ q ∈ st.doc, q.id = p.id) →
      ((l.map ProcessRecord.id).Nodup) →
      ∃ st', cleanupLoop st l = .ok st'
        ∧ st'.doc = st.doc.filter (fun q => decide (q.id ∉ l.map ProcessRecord.id))
        ∧ st'.attempts = st.attempts
            ++ (l.filter (fun q => jsTruthyLog q.logFile)).map (fun q => q.logFile.getD "")
        ∧ st'.processes = st.processes + l.length
        ∧ st'.logFiles + st'.files.length = st.logFiles + st.files.length := by
  induction l with
  | nil =>
    intro st _ _
    exact ⟨st, rfl, by simp, by simp, rfl, rfl⟩
  | cons p rest ih =>
    intro st hsub hnodup
    have hpne : p.id ∉ rest.map ProcessRecord.id := by
      have h := hnodup
      rw [List.map_cons] at h
      exact (List.nodup_cons.1 h).1
    have hrestnodup : (rest.map ProcessRecord.id).Nodup := by
      have h := hnodup
      rw [List.map_cons] at h
      exact h.of_cons
    have hdel : storageDeleteProcess st.doc p.id
        = .ok (st.doc.filter (fun q => decide (q.id ≠ p.id))) :=
      storageDeleteProcess_ok (hsub p (List.mem_cons_self p rest))
    have hsub2 : ∀ p' ∈ rest,
        ∃ q ∈ st.doc.filter (fun q => decide (q.id ≠ p.id)), q.id = p'.id := by
      intro p' hp'
      obtain ⟨q, hq, hqid⟩ := hsub p' (List.mem_cons_of_mem p hp')
      have hne : p'.id ≠ p.id := by
        intro he
        exact hpne (he ▸ List.mem_map_of_mem ProcessRecord.id hp')
      exact ⟨q, List.mem_filter.2 ⟨hq, by simp [hqid, hne]⟩, hqid⟩
    have step : ∀ (fl at1 : List String) (lg : Nat),
        ∃ st', cleanupLoop
            ⟨st.doc.filter (fun q => decide (q.id ≠ p.id)), fl, at1, st.processes + 1, lg⟩
            rest = .ok st'
          ∧ st'.doc = st.doc.filter (fun q => decide (q.id ∉ (p :: rest).map ProcessRecord.id))
          ∧ st'.attempts = at1
              ++ (rest.filter (fun q => jsTruthyLog q.logFile)).map (fun q => q.logFile.getD "")
          ∧ st'.processes = st.processes + (rest.length + 1)
          ∧ st'.logFiles + st'.files.length = lg + fl.length := by
      intro fl at1 lg
      obtain ⟨st', h1, h2, h3, h4, h5⟩ :=
        ih ⟨st.doc.filter (fun q => decide (q.id ≠ p.id)), fl, at1, st.processes + 1, lg⟩
          hsub2 hrestnodup
      refine ⟨st', h1, ?_, by simpa using h3,
        by
          have h4a : st'.processes = st.processes + 1 + rest.length := h4
          omega,
        by simpa using h5⟩
      rw [h2]
      show (st.doc.filter (fun q => decide (q.id ≠ p.id))).filter
          (fun q => decide (q.id ∉ rest.map ProcessRecord.id)) = _
      rw [List.filter_filter]
      apply List.filter_congr
      intro x _
      by_cases h1x : x.id = p.id <;> by_cases h2x : x.id ∈ rest.map ProcessRecord.id <;>
        simp [h1x, h2x]
    by_cases htr : jsTruthyLog p.logFile = true
    · by_cases hcont : st.files.contains (p.logFile.getD "") = true
      · simp only [cleanupLoop]
        rw [if_pos htr, if_pos hcont]
        dsimp only
        rw [hdel]
        dsimp only
        obtain ⟨st', h1, h2, h3, h4, h5⟩ :=
          step (st.files.erase (p.logFile.getD "")) (st.attempts ++ [p.logFile.getD ""])
            (st.logFiles + 1)
        refine ⟨st', h1, h2, ?_, by simpa using h4, ?_⟩
        · rw [h3]
          simp [List.filter_cons, htr]
        · have hfmem : (p.logFile.getD "") ∈ st.files := by simpa using hcont
          have hlen := List.length_erase_of_mem hfmem
          have hpos := List.length_pos_of_mem hfmem
          rw [hlen] at h5
          omega
      · simp only [cleanupLoop]
        rw [if_pos htr, if_neg hcont]
        dsimp only
        rw [hdel]
        dsimp only
        obtain ⟨st', h1, h2, h3, h4, h5⟩ :=
          step st.files (st.attempts ++ [p.logFile.getD ""]) st.logFiles
        refine ⟨st', h1, h2, ?_, by simpa using h4, h5⟩
        rw [h3]
        simp [List.filter_cons, htr]
    · simp only [cleanupLoop]
      rw [if_neg htr]
      rw [hdel]
      obtain ⟨st', h1, h2, h3, h4, h5⟩ := step st.files st.attempts st.logFiles
      refine ⟨st', h1, h2, ?_, by simpa using h4, h5⟩
      rw [h3]
      simp [List.filter_cons, htr]

/-- C5 (amended): on a document with unique ids, `cleanup` deletes exactly
the records whose status is not `running` (records with status `running`
are untouched), attempts exactly one log-file unlink per removed record
that has a (truthy) `logFile` — records without one get no attempt —
swallows per-file deletion failures such as a missing file without
aborting the batch, and returns the count of removed records together
with the count of log files actually removed from disk. -/
theorem cleanup_removes_non_running (doc : List ProcessRecord) (files : List String)
    (hnodup : (doc.map ProcessRecord.id).Nodup) :
    ∃ st', cleanupM doc files = .ok st'
      ∧ st'.doc = doc.filter (fun p => decide (p.status = .running))
      ∧ st'.attempts = ((doc.filter (fun p => decide (p.status ≠ .running))).filter
            (fun p => jsTruthyLog p.logFile)).map (fun p => p.logFile.getD "")
      ∧ st'.processes = (doc.filter (fun p => decide (p.status ≠ .running))).length
      ∧ st'.logFiles + st'.files.length = files.length := by
  have hlsub : ∀ p ∈ doc.filter (fun p => decide (p.status ≠ .running)),
      ∃ q ∈ doc, q.id = p.id :=
    fun p hp => ⟨p, List.mem_of_mem_filter hp, rfl⟩
  have hlnodup : ((doc.filter (fun p => decide (p.status ≠ .running))).map
      ProcessRecord.id).Nodup :=
    List.Nodup.sublist (List.Sublist.map _ (List.filter_sublist doc)) hnodup
  obtain ⟨st', hloop, hdoc', hatt', hproc', hlog'⟩ :=
    cleanupLoop_spec (doc.filter fun p => decide (p.status ≠ .running))
      ⟨doc, files, [], 0, 0⟩ hlsub hlnodup
  refine ⟨st', hloop, ?_, by simpa using hatt', by simpa using hproc', by simpa using hlog'⟩
  rw [hdoc']
  show doc.filter _ = _
  apply List.filter_congr
  intro x hx
  by_cases hs : x.status = .running
  · have hnot : x.id ∉ (doc.filter (fun p => decide (p.status ≠ .running))).map
        ProcessRecord.id := by
      intro hmem
      obtain ⟨r, hr, hrid⟩ := List.mem_map.1 hmem
      have hrdoc : r ∈ doc := List.mem_of_mem_filter hr
      have hrx : r = x := List.inj_on_of_nodup_map hnodup hrdoc hx hrid
      subst hrx
      have hcontra := List.of_mem_filter hr
      simp [hs] at hcontra
    simp [hs]
    exact fun y hy hys hid =>
      hnot (List.mem_map.2 ⟨y, List.mem_filter.2 ⟨hy, by simp [hys]⟩, hid⟩)
  · simp [hs]
    exact ⟨x, hx, hs, rfl⟩

/-- Witness records for C5. -/
def c5run : ProcessRecord :=
  { demoRec with id := "id-r", name := "p-run", status := .running, logFile := some "/lr" }

/-- A stopped witness record whose log file exists on disk. -/
def c5stop1 : ProcessRecord :=
  { demoRec with id := "id-s1", name := "p-s1", logFile := some "/l2" }

/-- A stopped witness record whose log file is missing from disk. -/
def c5stop2 : ProcessRecord :=
  { demoRec with id := "id-s2", name := "p-s2", logFile := some "/l3" }

/-- Witness for the amended C5 on a three-record document: the running
record survives, both stopped records are removed with one unlink
attempt each, and only the existing file counts as removed. -/
theorem cleanup_witness :
    ∃ st', cleanupM [c5run, c5stop1, c5stop2] ["/l2", "/lr"] = .ok st'
      ∧ st'.doc = [c5run, c5stop1, c5stop2].filter (fun p => decide (p.status = .running))
      ∧ st'.attempts = (([c5run, c5stop1, c5stop2].filter
            (fun p => decide (p.status ≠ .running))).filter
            (fun p => jsTruthyLog p.logFile)).map (fun p => p.logFile.getD "")
      ∧ st'.processes = ([c5run, c5stop1, c5stop2].filter
            (fun p => decide (p.status ≠ .running))).length
      ∧ st'.logFiles + st'.files.length = (["/l2", "/lr"] : List String).length :=
  cleanup_removes_non_running [c5run, c5stop1, c5stop2] ["/l2", "/lr"] (by decide)

/-- A stopped record with no `logFile` at all. -/
def c5rec : ProcessRecord := { demoRec with id := "id-c5", name := "p-c5" }

/-- Counterexample to C5 as stated: cleaning up a document whose single
non-running record has no `logFile` removes one record but attempts zero
log-file deletions, so cleanup does not attempt exactly one deletion per
removed record. -/
theorem cleanup_attempts_claim_cex :
    (cleanupM [c5rec] []).map (fun st => (st.attempts.length, st.processes))
      = .ok (0, 1) := by rfl
